import Mathlib

/-!
Shallow embedding of the `openaiapi` / `oiaapi` conversation-state manager.

The data model and every operation below are translated from the Python
sources (`src/openaiapi/history.py`, `src/openaiapi/metrics.py`,
`src/openaiapi/client.py`, `src/oiaapi/__init__.py`).  Python dictionaries
`{"id": ..., "role": ..., "content": ..., "active": ...}` become the `Node`
structure; the mutable object state becomes explicit state passing; `raise`
becomes `Except.error`.
-/

namespace OpenaiApi

/-- The `role` field of a history node (`"system" | "user" | "assistant"`). -/
inductive Role
  | system
  | user
  | assistant
deriving DecidableEq, Repr, Inhabited

/-- One element of a multimodal content list: either `{"type": "text", "text": s}`
or the encoded form an external `ContentPart` (e.g. `Image.encode`) produces. -/
inductive Fragment
  | text (s : String)
  | image_url (url : String) (detail : String)
deriving DecidableEq, Repr, Inhabited

/-- The `content` field of a node: plain text or a list of content fragments. -/
inductive Content
  | str (s : String)
  | parts (ps : List Fragment)
deriving DecidableEq, Repr, Inhabited

/-- One history node, as stored in `ConversationHistory._nodes`. -/
structure Node where
  id : Nat
  role : Role
  content : Content
  active : Bool
deriving DecidableEq, Repr, Inhabited

/-- State of `ConversationHistory` (`history.py`): the ordered node store and
the monotone id counter `_next_id`. -/
structure ConversationHistory where
  nodes : List Node := []
  next_id : Nat := 0
deriving DecidableEq, Repr, Inhabited

namespace ConversationHistory

/-- `ConversationHistory.add_system` (history.py:32-49): deactivate every
currently-active system node, then append a fresh active system node and
return its new id together with the updated state. -/
def add_system (h : ConversationHistory) (content : String) : Nat × ConversationHistory :=
  let nodes :=
    h.nodes.map fun n =>
      if n.role = Role.system ∧ n.active then { n with active := false } else n
  let node_id := h.next_id
  (node_id,
    { nodes := nodes ++ [⟨node_id, Role.system, Content.str content, true⟩],
      next_id := h.next_id + 1 })

/-- `ConversationHistory.add_user` (history.py:51-63): append an inactive user
node with a fresh id; return the id and the updated state. -/
def add_user (h : ConversationHistory) (content : Content) : Nat × ConversationHistory :=
  let node_id := h.next_id
  (node_id,
    { nodes := h.nodes ++ [⟨node_id, Role.user, content, false⟩],
      next_id := h.next_id + 1 })

/-- The search loop of `add_assistant` (history.py:77-81): activate the first
user node carrying the given id (`break` after the first hit). -/
def activate_first_user (node_id : Nat) : List Node → List Node
  | [] => []
  | n :: t =>
    if n.id = node_id ∧ n.role = Role.user then { n with active := true } :: t
    else n :: activate_first_user node_id t

/-- `ConversationHistory.add_assistant` (history.py:65-81): append an active
assistant node under the given id, then activate the first user node with that
id.  The Python code raises no error when no such user node exists. -/
def add_assistant (h : ConversationHistory) (node_id : Nat) (content : String) :
    ConversationHistory :=
  { h with
    nodes :=
      activate_first_user node_id
        (h.nodes ++ [⟨node_id, Role.assistant, Content.str content, true⟩]) }

/-- The assignment `first_node["active"] = new_state` of `toggle`
(history.py:110): set the `active` flag of the first node carrying the id. -/
def set_first_with_id (node_id : Nat) (b : Bool) : List Node → List Node
  | [] => []
  | n :: t =>
    if n.id = node_id then { n with active := b } :: t
    else n :: set_first_with_id node_id b t

/-- Error message of `toggle` when the id is unknown (history.py:104). -/
def no_node_msg (node_id : Nat) : String :=
  "No existe ningún nodo con el ID " ++ toString node_id ++ "."

/-- Error message of `toggle` on an incomplete user/assistant pair
(history.py:121-123). -/
def incomplete_pair_msg (node_id : Nat) : String :=
  "El nodo " ++ toString node_id ++
    " no tiene un par user/assistant completo. No puede activarse/desactivarse."

/-- `ConversationHistory.toggle` (history.py:87-130).  For a system id: set or
flip the first node's flag and, when the new state is active, deactivate every
other system node.  For a user/assistant id: require both roles present
(error otherwise, raised before any mutation), then set or flip the whole
pair, taking the user node as reference for inversion. -/
def toggle (h : ConversationHistory) (node_id : Nat) (active : Option Bool) :
    Except String ConversationHistory :=
  let nodes_with_id := h.nodes.filter fun n => n.id = node_id
  match nodes_with_id with
  | [] => .error (no_node_msg node_id)
  | first_node :: _ =>
    if first_node.role = Role.system then
      let new_state := active.getD (!first_node.active)
      let nodes1 := set_first_with_id node_id new_state h.nodes
      let nodes2 :=
        if new_state then
          nodes1.map fun n =>
            if n.role = Role.system ∧ n.id ≠ node_id then { n with active := false } else n
        else nodes1
      .ok { h with nodes := nodes2 }
    else
      if (∃ n ∈ nodes_with_id, n.role = Role.user) ∧
          (∃ n ∈ nodes_with_id, n.role = Role.assistant) then
        match nodes_with_id.find? fun n => n.role = Role.user with
        | some reference =>
          let new_state := active.getD (!reference.active)
          .ok { h with
                nodes := h.nodes.map fun n =>
                  if n.id = node_id then { n with active := new_state } else n }
        | none =>
          -- unreachable: the guard just established that a user node exists
          .error (incomplete_pair_msg node_id)
      else
        .error (incomplete_pair_msg node_id)

/-- One `{role, content}` message of the request payload. -/
structure Message where
  role : Role
  content : Content
deriving DecidableEq, Repr, Inhabited

/-- `ConversationHistory.build_messages` (history.py:136-164): the last active
system node found while scanning the store (if any), followed by every active
user/assistant node in store order, each as a `{role, content}` pair. -/
def build_messages (h : ConversationHistory) : List Message :=
  let last_system :=
    h.nodes.foldl
      (fun acc n => if n.role = Role.system ∧ n.active then some n else acc) none
  (match last_system with
   | some n => [⟨Role.system, n.content⟩]
   | none => []) ++
    (h.nodes.filter fun n =>
        (n.role = Role.user ∨ n.role = Role.assistant) ∧ n.active).map
      fun n => ⟨n.role, n.content⟩

/-- The loop of `get_active_node_ids` (history.py:166-174), with the `seen`
set made explicit. -/
def active_ids_aux (seen : List Nat) : List Node → List Nat
  | [] => []
  | n :: t =>
    if n.active ∧ n.id ∉ seen then n.id :: active_ids_aux (n.id :: seen) t
    else active_ids_aux seen t

/-- `ConversationHistory.get_active_node_ids` (history.py:166-174): ids of
active nodes, deduplicated, in first-seen store order. -/
def get_active_node_ids (h : ConversationHistory) : List Nat :=
  active_ids_aux [] h.nodes

/-- `ConversationHistory.deepcopy` (history.py:204-209), as a value copy. -/
def deepcopy (h : ConversationHistory) : ConversationHistory :=
  { nodes := h.nodes, next_id := h.next_id }

/-- `ConversationHistory.clear` (history.py:211-222): deactivate every node,
skipping system nodes unless `include_system` is true.  Deletes nothing. -/
def clear (h : ConversationHistory) (include_system : Bool) : ConversationHistory :=
  { h with
    nodes := h.nodes.map fun n =>
      if n.role = Role.system ∧ include_system = false then n
      else { n with active := false } }

/-- The plain structure returned by `ConversationHistory.to_dict`
(history.py:224-229). -/
structure HistoryDict where
  nodes : List Node
  next_id : Nat
deriving DecidableEq, Repr

/-- `ConversationHistory.to_dict` (history.py:224-229). -/
def to_dict (h : ConversationHistory) : HistoryDict :=
  ⟨h.nodes, h.next_id⟩

/-- `ConversationHistory.from_dict` (history.py:231-237). -/
def from_dict (d : HistoryDict) : ConversationHistory :=
  { nodes := d.nodes, next_id := d.next_id }

end ConversationHistory

/-- A nested usage-telemetry value (`response.usage.model_dump(...)`):
a number or a nested string-keyed mapping. -/
inductive Usage
  | num (n : Int)
  | obj (fields : List (String × Usage))

instance : Inhabited Usage := ⟨Usage.num 0⟩

/-- One record appended by `Metrics.log` (metrics.py:19-33). -/
structure UsageRecord where
  model : String
  active_nodes : List Nat
  usage : Usage

/-- State of `Metrics` (metrics.py): the append-only record list. -/
structure Metrics where
  records : List UsageRecord := []

namespace Metrics

/-- `Metrics.log` (metrics.py:19-33): append one usage record. -/
def log (m : Metrics) (usage_dict : Usage) (model : String)
    (active_node_ids : List Nat) : Metrics :=
  { m with records := m.records ++ [⟨model, active_node_ids, usage_dict⟩] }

/-- `Metrics.deepcopy` (metrics.py:81-85), as a value copy. -/
def deepcopy (m : Metrics) : Metrics :=
  { records := m.records }

/-- `Metrics.clear` (metrics.py:87-89): drop every record. -/
def clear (_m : Metrics) : Metrics :=
  { records := [] }

/-- The plain structure returned by `Metrics.to_dict` (metrics.py:91-93). -/
structure MetricsDict where
  records : List UsageRecord

/-- `Metrics.to_dict` (metrics.py:91-93). -/
def to_dict (m : Metrics) : MetricsDict :=
  ⟨m.records⟩

/-- `Metrics.from_dict` (metrics.py:95-100). -/
def from_dict (d : MetricsDict) : Metrics :=
  { records := d.records }

end Metrics

/-- One positional argument of `chat(*messages)`: a plain string or a
multimodal `ContentPart` (already encodable to a fragment). -/
inductive MsgPart
  | text (s : String)
  | part (f : Fragment)
deriving DecidableEq, Repr

/-- The content-building step shared by `Chat.chat` (oiaapi:95-110) and
`ChatClient.chat` (client.py:97-113): zero parts is an error; a single plain
string stays plain; otherwise a multimodal fragment list is built
(`{"type": "text", "text": s}` for strings, `encode()` for parts). -/
def build_content : List MsgPart → Except String Content
  | [] => .error "Debes proporcionar al menos un mensaje."
  | [MsgPart.text s] => .ok (Content.str s)
  | ps =>
    .ok (Content.parts (ps.map fun p =>
      match p with
      | .text s => Fragment.text s
      | .part f => f))

/-- The outcome of `client.chat.completions.create`: the assistant reply text
and the optional usage report. -/
structure ApiResponse where
  reply : String
  usage : Option Usage

/-- The `RuntimeError` message wrapping a failed boundary call
(oiaapi:147-148, client.py:141-142). -/
def api_error_msg (e : String) : String :=
  "Error al comunicarse con la API de OpenAI: " ++ e

/-- State of the node-based session `Chat` (oiaapi/__init__.py). -/
structure Chat where
  model : String
  history : ConversationHistory
  metrics : Metrics

namespace Chat

/-- `Chat.chat` (oiaapi:84-148) with the completion boundary made explicit:
`api` is the outcome of `self.openia.chat.completions.create`.  Returns the
post-call state together with the reply or the raised error.  On boundary
failure the freshly added user node stays recorded but inactive and a
`RuntimeError` wrapping the cause is raised. -/
def chat (c : Chat) (parts : List MsgPart) (api : Except String ApiResponse) :
    Chat × Except String String :=
  match build_content parts with
  | .error e => (c, .error e)
  | .ok content =>
    let r := c.history.add_user content
    let user_node_id := r.1
    let h1 := r.2
    let active_ids := h1.get_active_node_ids ++ [user_node_id]
    match api with
    | .error e => ({ c with history := h1 }, .error (api_error_msg e))
    | .ok resp =>
      let h2 := h1.add_assistant user_node_id resp.reply
      let m2 :=
        match resp.usage with
        | some usage_dict => c.metrics.log usage_dict c.model active_ids
        | none => c.metrics
      ({ c with history := h2, metrics := m2 }, .ok resp.reply)

/-- `Chat.clear` (oiaapi:150-159): soft-clear the history nodes and reset the
metrics records. -/
def clear (c : Chat) (include_system : Bool) : Chat :=
  { c with
    history := c.history.clear include_system,
    metrics := c.metrics.clear }

end Chat

/-- State of the minimal-variant `ChatClient` (client.py): a plain
role/content list plus the raw usage log. -/
structure ChatClient where
  model : String
  history : List ConversationHistory.Message
  usage_details : List Usage

namespace ChatClient

/-- `ChatClient.chat` (client.py:85-142) with the completion boundary made
explicit.  On boundary failure the just-appended user entry is popped back off
the history and a `RuntimeError` wrapping the cause is raised. -/
def chat (c : ChatClient) (parts : List MsgPart) (api : Except String ApiResponse) :
    ChatClient × Except String String :=
  match build_content parts with
  | .error e => (c, .error e)
  | .ok content =>
    let hist1 := c.history ++ [⟨Role.user, content⟩]
    match api with
    | .ok resp =>
      let hist2 := hist1 ++ [⟨Role.assistant, Content.str resp.reply⟩]
      let ud :=
        match resp.usage with
        | some usage_dict => c.usage_details ++ [usage_dict]
        | none => c.usage_details
      ({ c with history := hist2, usage_details := ud }, .ok resp.reply)
    | .error e =>
      let hist2 :=
        match hist1.getLast? with
        | some m => if m.role = Role.user then hist1.dropLast else hist1
        | none => hist1
      ({ c with history := hist2 }, .error (api_error_msg e))

end ChatClient

/-!
### Explicit-heap model of the mutable node store

Python node dictionaries are mutable objects: `deepcopy` (history.py:204-209,
metrics.py:81-85) matters exactly because the copy must share no mutable
structure with the source.  To verify that, the same operations are rendered
once more over an explicit heap: node dictionaries live in a heap (addresses
are allocation indices), a history object holds the addresses of its nodes,
and every in-place Python mutation becomes a heap write at those addresses.
-/

namespace HeapModel

/-- The heap of node dictionaries; an address is an index, allocation appends. -/
abbrev Heap := List Node

/-- A `ConversationHistory` object: the addresses of its `_nodes` entries plus
its `_next_id` counter. -/
structure HistRef where
  addrs : List Nat
  next_id : Nat

/-- Dereference one node address. -/
def readN (heap : Heap) (a : Nat) : Node :=
  (heap[a]?).getD default

/-- The node list a history object sees: its addresses dereferenced in order. -/
def readAll (heap : Heap) (addrs : List Nat) : List Node :=
  addrs.map (readN heap)

/-- Apply an address-indexed rewrite to every heap cell (the heap image of a
Python `for node in self._nodes:` mutation loop, guarded by membership of the
address in the iterating object's node list). -/
def mapHeapFrom (f : Nat → Node → Node) : Nat → Heap → Heap
  | _, [] => []
  | i, n :: t => f i n :: mapHeapFrom f (i + 1) t

/-- `mapHeapFrom` starting at address 0. -/
def mapHeap (f : Nat → Node → Node) (heap : Heap) : Heap :=
  mapHeapFrom f 0 heap

/-- Heap image of `add_system` (history.py:32-49): deactivate the caller's
active system nodes in place, then allocate the fresh node.  Returns the new
heap, the updated object and the returned id. -/
def hp_add_system (heap : Heap) (h : HistRef) (content : String) :
    Heap × HistRef × Nat :=
  let heap1 :=
    mapHeap
      (fun i n =>
        if i ∈ h.addrs ∧ n.role = Role.system ∧ n.active then { n with active := false }
        else n)
      heap
  let node_id := h.next_id
  (heap1 ++ [⟨node_id, Role.system, Content.str content, true⟩],
    ({ addrs := h.addrs ++ [heap1.length], next_id := h.next_id + 1 }, node_id))

/-- Heap image of `add_user` (history.py:51-63): allocate the inactive node. -/
def hp_add_user (heap : Heap) (h : HistRef) (content : Content) :
    Heap × HistRef × Nat :=
  let node_id := h.next_id
  (heap ++ [⟨node_id, Role.user, content, false⟩],
    ({ addrs := h.addrs ++ [heap.length], next_id := h.next_id + 1 }, node_id))

/-- The search loop of `add_assistant` (history.py:77-81) over addresses:
activate in place the first user node carrying the id. -/
def hp_activate_first_user (heap : Heap) (node_id : Nat) : List Nat → Heap
  | [] => heap
  | a :: t =>
    let n := readN heap a
    if n.id = node_id ∧ n.role = Role.user then heap.set a { n with active := true }
    else hp_activate_first_user heap node_id t

/-- Heap image of `add_assistant` (history.py:65-81): allocate the assistant
node, then activate the first matching user node in place. -/
def hp_add_assistant (heap : Heap) (h : HistRef) (node_id : Nat) (content : String) :
    Heap × HistRef :=
  let heap1 := heap ++ [⟨node_id, Role.assistant, Content.str content, true⟩]
  let addrs1 := h.addrs ++ [heap.length]
  (hp_activate_first_user heap1 node_id addrs1, { h with addrs := addrs1 })

/-- Heap image of `toggle` (history.py:87-130).  Both `raise` paths leave the
heap untouched (the Python exceptions are thrown before any mutation), so this
rendering returns the heap unchanged there. -/
def hp_toggle (heap : Heap) (h : HistRef) (node_id : Nat) (active : Option Bool) :
    Heap :=
  let addrs_with_id := h.addrs.filter fun a => (readN heap a).id = node_id
  match addrs_with_id with
  | [] => heap
  | a0 :: _ =>
    let first_node := readN heap a0
    if first_node.role = Role.system then
      let new_state := active.getD (!first_node.active)
      let heap1 := heap.set a0 { first_node with active := new_state }
      if new_state then
        mapHeap
          (fun i n =>
            if i ∈ h.addrs ∧ n.role = Role.system ∧ n.id ≠ node_id then
              { n with active := false }
            else n)
          heap1
      else heap1
    else
      if (∃ a ∈ addrs_with_id, (readN heap a).role = Role.user) ∧
          (∃ a ∈ addrs_with_id, (readN heap a).role = Role.assistant) then
        match addrs_with_id.find? fun a => (readN heap a).role = Role.user with
        | some aref =>
          let new_state := active.getD (!(readN heap aref).active)
          mapHeap
            (fun i n =>
              if i ∈ h.addrs ∧ n.id = node_id then { n with active := new_state } else n)
            heap
        | none => heap
      else heap

/-- Heap image of `clear` (history.py:211-222): deactivate the caller's nodes
in place, skipping system nodes unless `include_system` is true. -/
def hp_clear (heap : Heap) (h : HistRef) (include_system : Bool) : Heap :=
  mapHeap
    (fun i n =>
      if i ∈ h.addrs ∧ ¬(n.role = Role.system ∧ include_system = false) then
        { n with active := false }
      else n)
    heap

/-- Heap image of `ConversationHistory.deepcopy` (history.py:204-209):
`copy.deepcopy(self._nodes)` allocates fresh cells holding copies of the
source nodes; the copy points at those fresh addresses only. -/
def hp_deepcopy (heap : Heap) (h : HistRef) : Heap × HistRef :=
  (heap ++ readAll heap h.addrs,
    { addrs := List.range' heap.length h.addrs.length, next_id := h.next_id })

/-- The heap of `_records` list objects: one cell per `Metrics` instance. -/
abbrev MHeap := List (List UsageRecord)

/-- Dereference one metrics object's record list. -/
def mread (mh : MHeap) (a : Nat) : List UsageRecord :=
  (mh[a]?).getD []

/-- Heap image of `Metrics.log` (metrics.py:19-33): append in place. -/
def hp_mlog (mh : MHeap) (a : Nat) (usage_dict : Usage) (model : String)
    (active_node_ids : List Nat) : MHeap :=
  mh.set a (mread mh a ++ [⟨model, active_node_ids, usage_dict⟩])

/-- Heap image of `Metrics.clear` (metrics.py:87-89): empty in place. -/
def hp_mclear (mh : MHeap) (a : Nat) : MHeap :=
  mh.set a []

/-- Heap image of `Metrics.deepcopy` (metrics.py:81-85): allocate a fresh cell
holding a copy of the record list; return its address. -/
def hp_mdeepcopy (mh : MHeap) (a : Nat) : MHeap × Nat :=
  (mh ++ [mread mh a], mh.length)

/-- `mapHeapFrom` preserves the heap length. -/
theorem length_mapHeapFrom (f : Nat → Node → Node) :
    ∀ (i : Nat) (l : Heap), (mapHeapFrom f i l).length = l.length := by
  intro i l
  induction l generalizing i with
  | nil => rfl
  | cons n t ih => simp [mapHeapFrom, ih]

/-- Cell `j` of a mapped heap is the image of cell `j`. -/
theorem getElem?_mapHeapFrom (f : Nat → Node → Node) :
    ∀ (l : Heap) (i j : Nat), (mapHeapFrom f i l)[j]? = (l[j]?).map (f (i + j)) := by
  intro l
  induction l with
  | nil => intro i j; simp [mapHeapFrom]
  | cons n t ih =>
    intro i j
    cases j with
    | zero => simp [mapHeapFrom]
    | succ k =>
      simp only [mapHeapFrom, List.getElem?_cons_succ]
      rw [ih (i + 1) k, show i + (k + 1) = i + 1 + k from by omega]

/-- Cell `j` of `mapHeap f heap` is `f j` applied to cell `j`. -/
theorem getElem?_mapHeap (f : Nat → Node → Node) (heap : Heap) (j : Nat) :
    (mapHeap f heap)[j]? = (heap[j]?).map (f j) := by
  rw [mapHeap, getElem?_mapHeapFrom]
  simp

/-- A mapped heap is unchanged at any address its rewrite fixes. -/
theorem getElem?_mapHeap_id (f : Nat → Node → Node) (heap : Heap) (j : Nat)
    (hf : ∀ n, f j n = n) : (mapHeap f heap)[j]? = heap[j]? := by
  rw [getElem?_mapHeap]
  cases heap[j]? <;> simp [hf]

/-- Reading below the old length ignores freshly allocated cells. -/
theorem getElem?_append_of_lt {α : Type} {l₁ l₂ : List α} {j : Nat}
    (hj : j < l₁.length) :
    (l₁ ++ l₂)[j]? = l₁[j]? := by
  rw [List.getElem?_append, if_pos hj]

/-- The `add_assistant` activation loop writes only at the addresses it is
given. -/
theorem getElem?_hp_activate_first_user (heap : Heap) (nid : Nat) :
    ∀ (addrs : List Nat) (j : Nat), j ∉ addrs →
      (hp_activate_first_user heap nid addrs)[j]? = heap[j]? := by
  intro addrs
  induction addrs with
  | nil => intro j _; rfl
  | cons a t ih =>
    intro j hj
    have hja : j ≠ a := fun hh => hj (hh ▸ List.mem_cons_self a t)
    have hjt : j ∉ t := fun hh => hj (List.mem_cons_of_mem a hh)
    simp only [hp_activate_first_user]
    by_cases hc : (readN heap a).id = nid ∧ (readN heap a).role = Role.user
    · rw [if_pos hc]
      exact List.getElem?_set_ne (Ne.symm hja)
    · rw [if_neg hc]
      exact ih j hjt

/-- Reading a list of addresses only depends on the cells at those
addresses. -/
theorem readAll_congr {heap heap' : Heap} {addrs : List Nat}
    (h : ∀ a ∈ addrs, heap'[a]? = heap[a]?) :
    readAll heap' addrs = readAll heap addrs :=
  List.map_congr_left fun a ha => by simp [readN, h a ha]

/-- Fresh cells appended past the heap read back exactly as written. -/
theorem readAll_fresh (l : List Node) :
    ∀ heap : Heap, readAll (heap ++ l) (List.range' heap.length l.length) = l := by
  induction l with
  | nil => intro heap; simp [readAll]
  | cons x t ih =>
    intro heap
    rw [List.length_cons, List.range'_succ]
    simp only [readAll, List.map_cons]
    have hx : readN (heap ++ x :: t) heap.length = x := by
      simp [readN, List.getElem?_append_right (Nat.le_refl heap.length)]
    rw [hx]
    have hrest : List.map (readN (heap ++ x :: t))
        (List.range' (heap.length + 1) t.length) = t := by
      have hre : heap ++ x :: t = (heap ++ [x]) ++ t := by simp
      have hlen : heap.length + 1 = (heap ++ [x]).length := by simp
      rw [hre, hlen]
      exact ih (heap ++ [x])
    rw [hrest]

/-- Addresses below the allocation point are not fresh. -/
theorem not_mem_range'_of_lt {a len k : Nat} (ha : a < len) :
    a ∉ List.range' len k := by
  rw [List.mem_range']
  rintro ⟨i, _, rfl⟩
  omega

/-- `hp_add_system` never writes outside the calling object's nodes (beyond
fresh allocation). -/
theorem frame_hp_add_system (heap : Heap) (r : HistRef) (s : String) (j : Nat)
    (hj : j ∉ r.addrs) (hjl : j < heap.length) :
    (hp_add_system heap r s).1[j]? = heap[j]? := by
  show ((mapHeap _ heap) ++ _)[j]? = heap[j]?
  rw [getElem?_append_of_lt (by rw [mapHeap, length_mapHeapFrom]; exact hjl)]
  exact getElem?_mapHeap_id _ heap j fun n => by
    rw [if_neg]
    rintro ⟨hmem, -⟩
    exact hj hmem

/-- `hp_add_user` only allocates. -/
theorem frame_hp_add_user (heap : Heap) (r : HistRef) (content : Content) (j : Nat)
    (hjl : j < heap.length) :
    (hp_add_user heap r content).1[j]? = heap[j]? :=
  getElem?_append_of_lt hjl

/-- `hp_add_assistant` writes only at the calling object's nodes. -/
theorem frame_hp_add_assistant (heap : Heap) (r : HistRef) (nid : Nat) (s : String)
    (j : Nat) (hj : j ∉ r.addrs) (hjl : j < heap.length) :
    (hp_add_assistant heap r nid s).1[j]? = heap[j]? := by
  show (hp_activate_first_user _ nid (r.addrs ++ [heap.length]))[j]? = heap[j]?
  rw [getElem?_hp_activate_first_user]
  · exact getElem?_append_of_lt hjl
  · intro hmem
    rcases List.mem_append.mp hmem with hmem | hmem
    · exact hj hmem
    · have : j = heap.length := by simpa using hmem
      omega

/-- `hp_toggle` writes only at the calling object's nodes. -/
theorem frame_hp_toggle (heap : Heap) (r : HistRef) (nid : Nat) (b : Option Bool)
    (j : Nat) (hj : j ∉ r.addrs) :
    (hp_toggle heap r nid b)[j]? = heap[j]? := by
  unfold hp_toggle
  cases hfe : (r.addrs.filter fun a => (readN heap a).id = nid) with
  | nil => rfl
  | cons a0 tail =>
    have ha0 : a0 ∈ r.addrs :=
      List.mem_of_mem_filter (hfe ▸ List.mem_cons_self a0 tail)
    have hja0 : a0 ≠ j := fun hh => hj (hh ▸ ha0)
    dsimp only
    by_cases hrole : (readN heap a0).role = Role.system
    · rw [if_pos hrole]
      by_cases hns : (b.getD (!(readN heap a0).active)) = true
      · rw [if_pos hns]
        rw [getElem?_mapHeap_id]
        · exact List.getElem?_set_ne hja0
        · intro n
          rw [if_neg]
          rintro ⟨hmem, -⟩
          exact hj hmem
      · rw [if_neg hns]
        exact List.getElem?_set_ne hja0
    · rw [if_neg hrole]
      by_cases hguard : (∃ a ∈ a0 :: tail, (readN heap a).role = Role.user) ∧
          (∃ a ∈ a0 :: tail, (readN heap a).role = Role.assistant)
      · rw [if_pos hguard]
        cases hfind : (a0 :: tail).find? fun a => (readN heap a).role = Role.user with
        | none => rfl
        | some aref =>
          rw [getElem?_mapHeap_id]
          intro n
          rw [if_neg]
          rintro ⟨hmem, -⟩
          exact hj hmem
      · rw [if_neg hguard]

/-- `hp_clear` writes only at the calling object's nodes. -/
theorem frame_hp_clear (heap : Heap) (r : HistRef) (include_system : Bool) (j : Nat)
    (hj : j ∉ r.addrs) :
    (hp_clear heap r include_system)[j]? = heap[j]? := by
  apply getElem?_mapHeap_id
  intro n
  rw [if_neg]
  rintro ⟨hmem, -⟩
  exact hj hmem

end HeapModel

/-!
### Theorems
-/

section HistoryTheorems

open ConversationHistory

/-- C2: after any `add_system` call, at most one system node is active — namely
the node just appended; every previously active system node is deactivated,
non-system nodes keep their flags (and ids, roles, contents), the new node is
appended with `active = true`, and the freshly assigned id is returned while
the counter advances. -/
theorem add_system_unique_active_system (h : ConversationHistory) (s : String) :
    (h.add_system s).1 = h.next_id ∧
    (h.add_system s).2.next_id = h.next_id + 1 ∧
    (h.add_system s).2.nodes.getLast? =
      some ⟨h.next_id, Role.system, Content.str s, true⟩ ∧
    ((h.add_system s).2.nodes.filter fun n => n.role = Role.system ∧ n.active) =
      [⟨h.next_id, Role.system, Content.str s, true⟩] ∧
    List.Forall₂
      (fun n n' => n'.id = n.id ∧ n'.role = n.role ∧ n'.content = n.content ∧
        (n.role ≠ Role.system → n'.active = n.active) ∧
        (n.role = Role.system → n'.active = false))
      h.nodes (h.add_system s).2.nodes.dropLast := by
  refine ⟨rfl, rfl, ?_, ?_, ?_⟩
  · simp [add_system]
  · rw [show (h.add_system s).2.nodes =
        (h.nodes.map fun n =>
          if n.role = Role.system ∧ n.active then { n with active := false } else n) ++
          [⟨h.next_id, Role.system, Content.str s, true⟩] from rfl,
      List.filter_append]
    have hnil :
        ((h.nodes.map fun n =>
            if n.role = Role.system ∧ n.active then { n with active := false } else n).filter
          fun n => n.role = Role.system ∧ n.active) = [] := by
      rw [List.filter_eq_nil_iff]
      intro a ha
      rcases List.mem_map.mp ha with ⟨n, _, rfl⟩
      by_cases hc : n.role = Role.system ∧ n.active
      · simp [hc]
      · simp only [if_neg hc]
        simpa using hc
    rw [hnil]
    simp
  · rw [show (h.add_system s).2.nodes =
        (h.nodes.map fun n =>
          if n.role = Role.system ∧ n.active then { n with active := false } else n) ++
          [⟨h.next_id, Role.system, Content.str s, true⟩] from rfl,
      List.dropLast_concat, List.forall₂_map_right_iff]
    rw [List.forall₂_same]
    intro n _
    by_cases hc : n.role = Role.system ∧ n.active
    · simp [hc]
    · refine ⟨by simp [if_neg hc], by simp [if_neg hc], by simp [if_neg hc], ?_, ?_⟩
      · intro _; simp [if_neg hc]
      · intro hrole
        have hact : n.active = false := by
          by_contra hact
          exact hc ⟨hrole, by simpa using hact⟩
        simp [if_neg hc, hact]

/-- C6: `clear` keeps the store length, every node's id, role and content, and
the counter; it deactivates every user/assistant node, deactivates system
nodes exactly when `include_system` is true, and otherwise leaves system
flags unchanged.  No node is deleted. -/
theorem clear_soft_deactivates (h : ConversationHistory) (include_system : Bool) :
    (h.clear include_system).next_id = h.next_id ∧
    (h.clear include_system).nodes.length = h.nodes.length ∧
    List.Forall₂
      (fun n n' => n'.id = n.id ∧ n'.role = n.role ∧ n'.content = n.content ∧
        ((n.role = Role.user ∨ n.role = Role.assistant) → n'.active = false) ∧
        (n.role = Role.system →
          n'.active = (if include_system then false else n.active)))
      h.nodes (h.clear include_system).nodes := by
  refine ⟨rfl, by simp [clear], ?_⟩
  rw [show (h.clear include_system).nodes =
      h.nodes.map fun n =>
        if n.role = Role.system ∧ include_system = false then n
        else { n with active := false } from rfl,
    List.forall₂_map_right_iff, List.forall₂_same]
  intro n _
  by_cases hc : n.role = Role.system ∧ include_system = false
  · obtain ⟨hr, hb⟩ := hc
    refine ⟨by simp [hr, hb], by simp [hr, hb], by simp [hr, hb], ?_, ?_⟩
    · intro hror
      rcases hror with h1 | h1 <;> · rw [h1] at hr; cases hr
    · intro _
      simp [hr, hb]
  · refine ⟨by simp [if_neg hc], by simp [if_neg hc], by simp [if_neg hc],
      fun _ => by simp [if_neg hc], ?_⟩
    intro hrole
    have hb : include_system = true := by
      cases hbc : include_system
      · exact absurd ⟨hrole, hbc⟩ hc
      · rfl
    simp [if_neg hc, hb]

/-- C7: serialize → deserialize → serialize is the identity on the serialized
structure, for both the history (`nodes` and `next_id`, inactive nodes
included) and the metrics (the full record list). -/
theorem to_dict_from_dict_round_trip (h : ConversationHistory) (m : Metrics) :
    ConversationHistory.to_dict (ConversationHistory.from_dict h.to_dict) = h.to_dict ∧
    Metrics.to_dict (Metrics.from_dict m.to_dict) = m.to_dict :=
  ⟨rfl, rfl⟩

/-- Specification rendering of the C1 sentence: the system entry is the last
active system node in store insertion order (`getLast?` of the filtered
store), followed by every active user/assistant node in store order. -/
def build_messages_spec (h : ConversationHistory) : List Message :=
  (match (h.nodes.filter fun n => n.role = Role.system ∧ n.active).getLast? with
   | some n => [⟨Role.system, n.content⟩]
   | none => []) ++
    (h.nodes.filter fun n =>
        (n.role = Role.user ∨ n.role = Role.assistant) ∧ n.active).map
      fun n => ⟨n.role, n.content⟩

/-- The `last_system` scan of `build_messages` (history.py:145-148) keeps the
last active system node of the store: it equals `getLast?` of the filtered
store (with the fold's accumulator as fallback). -/
theorem foldl_last_active_system (l : List Node) :
    ∀ acc : Option Node,
      l.foldl (fun acc n => if n.role = Role.system ∧ n.active then some n else acc) acc =
        ((l.filter fun n => n.role = Role.system ∧ n.active).getLast?).or acc := by
  induction l with
  | nil => intro acc; simp
  | cons n t ih =>
    intro acc
    by_cases hc : n.role = Role.system ∧ n.active
    · rw [List.foldl_cons, if_pos hc, ih (some n)]
      have hf : ((n :: t).filter fun m => m.role = Role.system ∧ m.active) =
          n :: (t.filter fun m => m.role = Role.system ∧ m.active) := by
        simp [List.filter_cons, hc]
      rw [hf]
      cases hft : (t.filter fun m => m.role = Role.system ∧ m.active) with
      | nil => simp
      | cons m u =>
        rw [List.getLast?_cons_cons]
        have hne : (m :: u) ≠ ([] : List Node) := by simp
        rw [List.getLast?_eq_getLast_of_ne_nil hne]
        simp [Option.or]
    · rw [List.foldl_cons, if_neg hc, ih acc]
      have hf : ((n :: t).filter fun m => m.role = Role.system ∧ m.active) =
          t.filter fun m => m.role = Role.system ∧ m.active := by
        simp [List.filter_cons, hc]
      rw [hf]

/-- C1: `build_messages` equals its specification rendering — the
most-recently-encountered active system node (if any) first, then the active
user/assistant nodes in store order with their original content — and every
emitted message is the role/content image of some active stored node, so
inactive nodes never appear. -/
theorem build_messages_correct (h : ConversationHistory) :
    h.build_messages = build_messages_spec h ∧
    ∀ m ∈ h.build_messages,
      ∃ n ∈ h.nodes, n.active = true ∧ m.role = n.role ∧ m.content = n.content := by
  have hmain : h.build_messages = build_messages_spec h := by
    unfold build_messages build_messages_spec
    rw [foldl_last_active_system, Option.or_none]
  refine ⟨hmain, ?_⟩
  rw [hmain]
  intro m hm
  unfold build_messages_spec at hm
  rcases List.mem_append.mp hm with hm | hm
  · cases hlast : (h.nodes.filter fun n => n.role = Role.system ∧ n.active).getLast? with
    | none => rw [hlast] at hm; simp at hm
    | some n =>
      rw [hlast] at hm
      have hmn : m = ⟨Role.system, n.content⟩ := by simpa using hm
      have hnf : n ∈ h.nodes.filter fun n => n.role = Role.system ∧ n.active := by
        rcases List.mem_getLast?_eq_getLast (Option.mem_def.mpr hlast) with ⟨hne, heq⟩
        exact heq ▸ List.getLast_mem hne
      have hn := List.mem_filter.mp hnf
      have hprop : n.role = Role.system ∧ n.active = true := by simpa using hn.2
      exact ⟨n, hn.1, hprop.2, by rw [hmn, hprop.1], by rw [hmn]⟩
  · rcases List.mem_map.mp hm with ⟨n, hn, rfl⟩
    have hmem := List.mem_filter.mp hn
    have hprop : (n.role = Role.user ∨ n.role = Role.assistant) ∧ n.active = true := by
      simpa using hmem.2
    exact ⟨n, hmem.1, hprop.2, rfl, rfl⟩

/-- Appending a non-matching node (e.g. the new assistant node) past the store
does not change which user node the `add_assistant` search loop activates. -/
theorem activate_first_user_concat (nid : Nat) (x : Node) (l : List Node)
    (hx : ¬(x.id = nid ∧ x.role = Role.user)) :
    activate_first_user nid (l ++ [x]) = activate_first_user nid l ++ [x] := by
  induction l with
  | nil => simp [activate_first_user, hx]
  | cons n t ih =>
    by_cases hc : n.id = nid ∧ n.role = Role.user
    · simp [activate_first_user, hc]
    · simp only [List.cons_append, activate_first_user, if_neg hc, List.append_eq, ih]

/-- When no user node carries the id, the `add_assistant` search loop is the
identity on the store. -/
theorem activate_first_user_of_no_user (nid : Nat) (l : List Node)
    (hl : ∀ n ∈ l, ¬(n.id = nid ∧ n.role = Role.user)) :
    activate_first_user nid l = l := by
  induction l with
  | nil => rfl
  | cons n t ih =>
    rw [activate_first_user, if_neg (hl n (List.mem_cons_self n t)),
      ih fun m hm => hl m (List.mem_cons_of_mem n hm)]

/-- A prefix free of matching user nodes is passed over unchanged by the
`add_assistant` search loop. -/
theorem activate_first_user_append_left (nid : Nat) (l1 l2 : List Node)
    (h1 : ∀ n ∈ l1, ¬(n.id = nid ∧ n.role = Role.user)) :
    activate_first_user nid (l1 ++ l2) = l1 ++ activate_first_user nid l2 := by
  induction l1 with
  | nil => rfl
  | cons n t ih =>
    rw [List.cons_append, activate_first_user,
      if_neg (h1 n (List.mem_cons_self n t)), ih fun m hm => h1 m (List.mem_cons_of_mem n hm),
      List.cons_append]

/-- C3 counterexample: on the empty history no user node with id 5 exists, yet
`add_assistant 5 "x"` does not fail — it returns normally, records the orphan
assistant node active, and `get_active_node_ids` lists the orphan id. -/
theorem add_assistant_orphan_no_error :
    (∀ n ∈ (⟨[], 0⟩ : ConversationHistory).nodes, ¬(n.role = Role.user ∧ n.id = 5)) ∧
    ConversationHistory.add_assistant ⟨[], 0⟩ 5 "x" =
      ⟨[⟨5, Role.assistant, Content.str "x", true⟩], 0⟩ ∧
    (ConversationHistory.add_assistant ⟨[], 0⟩ 5 "x").get_active_node_ids = [5] :=
  ⟨by simp, rfl, rfl⟩

/-- C3 (amended): `add_assistant id text` never fails; it always appends an
active assistant node under the given id and activates the first user node
sharing that id if one exists; when no user node with that id exists the
store simply gains the active orphan assistant node and nothing else
changes. -/
theorem add_assistant_appends_unconditionally (h : ConversationHistory) (nid : Nat)
    (s : String) :
    (h.add_assistant nid s).next_id = h.next_id ∧
    (h.add_assistant nid s).nodes =
      activate_first_user nid h.nodes ++ [⟨nid, Role.assistant, Content.str s, true⟩] ∧
    ((∀ n ∈ h.nodes, ¬(n.role = Role.user ∧ n.id = nid)) →
      (h.add_assistant nid s).nodes =
        h.nodes ++ [⟨nid, Role.assistant, Content.str s, true⟩]) := by
  have happ : (h.add_assistant nid s).nodes =
      activate_first_user nid h.nodes ++ [⟨nid, Role.assistant, Content.str s, true⟩] :=
    activate_first_user_concat nid _ h.nodes (by simp)
  refine ⟨rfl, happ, fun hno => ?_⟩
  rw [happ, activate_first_user_of_no_user nid h.nodes
    fun n hn hc => hno n hn ⟨hc.2, hc.1⟩]

/-- Witness for the amended C3 theorem at a concrete orphan input. -/
theorem add_assistant_appends_unconditionally_witness :
    (ConversationHistory.add_assistant ⟨[], 0⟩ 7 "y").nodes =
      ([] : List Node) ++ [⟨7, Role.assistant, Content.str "y", true⟩] :=
  (add_assistant_appends_unconditionally ⟨[], 0⟩ 7 "y").2.2 (by simp)

/-- C4: toggling a user/assistant id whose pair is incomplete (the id occurs
in the store, never as a system node, but one of the two roles is missing)
always fails with the incomplete-pair error.  The error is raised before any
assignment in the Python code, so the returned state is the error alone and
the store is untouched. -/
theorem toggle_incomplete_pair_error (h : ConversationHistory) (nid : Nat)
    (desired : Option Bool)
    (hex : ∃ n ∈ h.nodes, n.id = nid)
    (hns : ∀ n ∈ h.nodes, n.id = nid → n.role ≠ Role.system)
    (hinc : ¬((∃ n ∈ h.nodes, n.id = nid ∧ n.role = Role.user) ∧
        (∃ n ∈ h.nodes, n.id = nid ∧ n.role = Role.assistant))) :
    h.toggle nid desired = Except.error (incomplete_pair_msg nid) := by
  obtain ⟨n0, hn0, hid0⟩ := hex
  have hmem : n0 ∈ h.nodes.filter fun n => n.id = nid :=
    List.mem_filter.mpr ⟨hn0, by simp [hid0]⟩
  cases hfe : (h.nodes.filter fun n => n.id = nid) with
  | nil => rw [hfe] at hmem; cases hmem
  | cons f rest =>
    have hfmem : f ∈ h.nodes.filter fun n => n.id = nid := by
      rw [hfe]; exact List.mem_cons_self f rest
    have hf := List.mem_filter.mp hfmem
    have hfid : f.id = nid := by simpa using hf.2
    have hfrole : f.role ≠ Role.system := hns f hf.1 hfid
    have hguard : ¬((∃ n ∈ f :: rest, n.role = Role.user) ∧
        (∃ n ∈ f :: rest, n.role = Role.assistant)) := by
      rintro ⟨⟨nu, hnu, hru⟩, ⟨na, hna, hra⟩⟩
      have hnu' : nu ∈ h.nodes.filter fun n => n.id = nid := by rw [hfe]; exact hnu
      have hna' : na ∈ h.nodes.filter fun n => n.id = nid := by rw [hfe]; exact hna
      have h1 := List.mem_filter.mp hnu'
      have h2 := List.mem_filter.mp hna'
      exact hinc ⟨⟨nu, h1.1, by simpa using h1.2, hru⟩,
        ⟨na, h2.1, by simpa using h2.2, hra⟩⟩
    unfold toggle
    rw [hfe]
    simp only [if_neg hfrole, if_neg hguard]

/-- Witness for C4 at a concrete state: a lone user node with id 0. -/
theorem toggle_incomplete_pair_error_witness :
    ConversationHistory.toggle ⟨[⟨0, Role.user, Content.str "hi", false⟩], 1⟩ 0 none =
      Except.error (incomplete_pair_msg 0) :=
  toggle_incomplete_pair_error _ 0 none (by simp) (by simp) (by simp)

/-- The `get_active_node_ids` loop never re-emits a seen id and its output is
duplicate-free. -/
theorem active_ids_aux_nodup (l : List Node) :
    ∀ seen : List Nat,
      (∀ x ∈ active_ids_aux seen l, x ∉ seen) ∧ (active_ids_aux seen l).Nodup := by
  induction l with
  | nil => intro seen; simp [active_ids_aux]
  | cons n t ih =>
    intro seen
    by_cases hc : n.active ∧ n.id ∉ seen
    · simp only [active_ids_aux, if_pos hc]
      refine ⟨?_, ?_⟩
      · intro x hx
        rcases List.mem_cons.mp hx with rfl | hx
        · exact hc.2
        · have := (ih (n.id :: seen)).1 x hx
          exact fun hs => this (List.mem_cons_of_mem _ hs)
      · refine List.nodup_cons.mpr ⟨?_, (ih (n.id :: seen)).2⟩
        intro hmem
        exact (ih (n.id :: seen)).1 n.id hmem (List.mem_cons_self _ _)
    · simp only [active_ids_aux, if_neg hc]
      exact ih seen
/-- Any active node whose id is not yet seen contributes its id to the
`get_active_node_ids` loop output. -/
theorem mem_active_ids_aux (l : List Node) :
    ∀ (seen : List Nat) (x : Nat), x ∉ seen →
      (∃ n ∈ l, n.active = true ∧ n.id = x) → x ∈ active_ids_aux seen l := by
  induction l with
  | nil =>
    rintro seen x _ ⟨n, hn, _⟩
    cases hn
  | cons m t ih =>
    rintro seen x hxs ⟨n, hn, hact, hid⟩
    by_cases hc : m.active ∧ m.id ∉ seen
    · simp only [active_ids_aux, if_pos hc]
      by_cases hx : x = m.id
      · exact hx ▸ List.mem_cons_self _ _
      · refine List.mem_cons_of_mem _ (ih (m.id :: seen) x ?_ ?_)
        · intro hmem
          rcases List.mem_cons.mp hmem with rfl | hmem
          · exact hx rfl
          · exact hxs hmem
        · rcases List.mem_cons.mp hn with rfl | hnt
          · exact absurd hid.symm hx
          · exact ⟨n, hnt, hact, hid⟩
    · simp only [active_ids_aux, if_neg hc]
      refine ih seen x hxs ?_
      rcases List.mem_cons.mp hn with rfl | hnt
      · exfalso
        exact hc ⟨by rw [hact], hid ▸ hxs⟩
      · exact ⟨n, hnt, hact, hid⟩

/-- C8: for a well-formed history (every stored id below the counter),
`add_user` appends an inactive user node and returns the fresh id; after the
matching `add_assistant` both nodes carrying that id are active, and
`get_active_node_ids` — deduplicated, first-seen order — contains the id
exactly once. -/
theorem add_user_then_add_assistant_pair (h : ConversationHistory) (content : Content)
    (s : String) (hwf : ∀ n ∈ h.nodes, n.id < h.next_id) :
    (h.add_user content).1 = h.next_id ∧
    (h.add_user content).2.nodes =
      h.nodes ++ [⟨h.next_id, Role.user, content, false⟩] ∧
    (∀ n ∈ ((h.add_user content).2.add_assistant (h.add_user content).1 s).nodes,
      n.id = (h.add_user content).1 → n.active = true) ∧
    (h.add_user content).1 ∈
      ((h.add_user content).2.add_assistant (h.add_user content).1 s).get_active_node_ids ∧
    List.count (h.add_user content).1
      ((h.add_user content).2.add_assistant (h.add_user content).1 s).get_active_node_ids
      = 1 := by
  have hold : ∀ n ∈ h.nodes, ¬(n.id = h.next_id ∧ n.role = Role.user) := by
    rintro n hn ⟨hid, _⟩
    exact absurd hid (Nat.ne_of_lt (hwf n hn))
  have hnodes :
      ((h.add_user content).2.add_assistant (h.add_user content).1 s).nodes =
        h.nodes ++ [⟨h.next_id, Role.user, content, true⟩,
          ⟨h.next_id, Role.assistant, Content.str s, true⟩] := by
    show activate_first_user h.next_id
        ((h.nodes ++ [⟨h.next_id, Role.user, content, false⟩]) ++
          [⟨h.next_id, Role.assistant, Content.str s, true⟩]) = _
    rw [List.append_assoc,
      activate_first_user_append_left h.next_id h.nodes _ hold]
    simp [activate_first_user]
  refine ⟨rfl, rfl, ?_, ?_, ?_⟩
  · rw [hnodes]
    intro n hn hid
    rcases List.mem_append.mp hn with hn | hn
    · exact absurd hid (Nat.ne_of_lt (hwf n hn))
    · rcases List.mem_cons.mp hn with rfl | hn
      · rfl
      · rcases List.mem_cons.mp hn with rfl | hn
        · rfl
        · cases hn
  · refine mem_active_ids_aux _ [] _ (by simp) ?_
    rw [hnodes]
    exact ⟨⟨h.next_id, Role.user, content, true⟩,
      List.mem_append_right _ (List.mem_cons_self _ _), rfl, rfl⟩
  · refine List.count_eq_one_of_mem
      (active_ids_aux_nodup _ []).2 ?_
    refine mem_active_ids_aux _ [] _ (by simp) ?_
    rw [hnodes]
    exact ⟨⟨h.next_id, Role.user, content, true⟩,
      List.mem_append_right _ (List.mem_cons_self _ _), rfl, rfl⟩

/-- Witness for C8 on the empty history: the fresh id 0 appears exactly once
in `get_active_node_ids` after the pair completes. -/
theorem add_user_then_add_assistant_pair_witness :
    List.count 0
      (((⟨[], 0⟩ : ConversationHistory).add_user (Content.str "q")).2.add_assistant
        ((⟨[], 0⟩ : ConversationHistory).add_user (Content.str "q")).1
        "a").get_active_node_ids = 1 := by
  have hthm := add_user_then_add_assistant_pair ⟨[], 0⟩ (Content.str "q") "a" (by simp)
  exact hthm.2.2.2.2

end HistoryTheorems

/-- Appending an inactive node never changes the `get_active_node_ids` loop
output. -/
theorem active_ids_aux_concat_inactive (l : List Node) (x : Node)
    (hx : x.active = false) :
    ∀ seen, ConversationHistory.active_ids_aux seen (l ++ [x]) =
      ConversationHistory.active_ids_aux seen l := by
  induction l with
  | nil => intro seen; simp [ConversationHistory.active_ids_aux, hx]
  | cons n t ih =>
    intro seen
    by_cases hc : n.active ∧ n.id ∉ seen
    · simp only [List.cons_append, ConversationHistory.active_ids_aux, if_pos hc,
        List.append_eq, ih]
    · simp only [List.cons_append, ConversationHistory.active_ids_aux, if_neg hc,
        List.append_eq, ih]

/-- With at least one message part, the shared content-building step always
succeeds (the empty-message error is its only failure). -/
theorem build_content_ok (p : MsgPart) (t : List MsgPart) :
    ∃ content, build_content (p :: t) = Except.ok content := by
  cases p with
  | text s =>
    cases t with
    | nil => exact ⟨_, rfl⟩
    | cons q u => exact ⟨_, rfl⟩
  | part f => exact ⟨_, rfl⟩

/-- C5: when the completion boundary fails, both variants surface the wrapped
`RuntimeError`.  The node-based `Chat.chat` keeps the freshly added user node
recorded but inactive, so `get_active_node_ids` is unchanged (and the metrics
are untouched); the minimal-variant `ChatClient.chat` pops the just-appended
user entry, so its history (hence its length) is unchanged. -/
theorem chat_boundary_failure_state (c : Chat) (cc : ChatClient)
    (parts parts' : List MsgPart) (e e' : String)
    (hp : parts ≠ []) (hp' : parts' ≠ []) :
    (c.chat parts (Except.error e)).2 = Except.error (api_error_msg e) ∧
    (c.chat parts (Except.error e)).1.history.get_active_node_ids =
      c.history.get_active_node_ids ∧
    (c.chat parts (Except.error e)).1.metrics = c.metrics ∧
    (cc.chat parts' (Except.error e')).2 = Except.error (api_error_msg e') ∧
    (cc.chat parts' (Except.error e')).1.history = cc.history ∧
    (cc.chat parts' (Except.error e')).1.usage_details = cc.usage_details := by
  obtain ⟨p, t, rfl⟩ : ∃ p t, parts = p :: t := by
    cases parts with
    | nil => cases hp rfl
    | cons p t => exact ⟨p, t, rfl⟩
  obtain ⟨p', t', rfl⟩ : ∃ p t, parts' = p :: t := by
    cases parts' with
    | nil => cases hp' rfl
    | cons p t => exact ⟨p, t, rfl⟩
  obtain ⟨content, hbc⟩ := build_content_ok p t
  obtain ⟨content', hbc'⟩ := build_content_ok p' t'
  refine ⟨?_, ?_, ?_, ?_, ?_, ?_⟩
  · simp only [Chat.chat, hbc]
  · simp only [Chat.chat, hbc]
    exact active_ids_aux_concat_inactive c.history.nodes _ rfl []
  · simp only [Chat.chat, hbc]
  · simp only [ChatClient.chat, hbc']
  · simp only [ChatClient.chat, hbc', List.getLast?_concat]
    simp [List.dropLast_concat]
  · simp only [ChatClient.chat, hbc']

/-- Witness for C5 at a concrete session, message and boundary error. -/
theorem chat_boundary_failure_state_witness :
    ((Chat.mk "m" ⟨[], 0⟩ ⟨[]⟩).chat [MsgPart.text "hi"]
        (Except.error "boom")).1.history.get_active_node_ids =
      (⟨[], 0⟩ : ConversationHistory).get_active_node_ids :=
  (chat_boundary_failure_state (Chat.mk "m" ⟨[], 0⟩ ⟨[]⟩) (ChatClient.mk "m" [] [])
    [MsgPart.text "hi"] [MsgPart.text "hi"] "boom" "boom"
    (by simp) (by simp)).2.1

/-- C10: the session-level `Chat.clear` resets the metrics record list to
empty (records are deleted), while history nodes are only soft-cleared: the
node count and every node's id, role and content survive, user/assistant
nodes are deactivated, and system nodes are deactivated exactly when
`include_system` is true. -/
theorem chat_clear_resets_metrics (c : Chat) (include_system : Bool) :
    (c.clear include_system).metrics.records = [] ∧
    (c.clear include_system).model = c.model ∧
    (c.clear include_system).history.nodes.length = c.history.nodes.length ∧
    (c.clear include_system).history.nodes.map Node.id =
      c.history.nodes.map Node.id ∧
    (c.clear include_system).history.nodes.map Node.role =
      c.history.nodes.map Node.role ∧
    (c.clear include_system).history.nodes.map Node.content =
      c.history.nodes.map Node.content ∧
    (∀ n ∈ (c.clear include_system).history.nodes,
      n.role ≠ Role.system → n.active = false) ∧
    (include_system = true →
      ∀ n ∈ (c.clear include_system).history.nodes, n.active = false) := by
  have hnodes : (c.clear include_system).history.nodes =
      c.history.nodes.map fun n =>
        if n.role = Role.system ∧ include_system = false then n
        else { n with active := false } := rfl
  refine ⟨rfl, rfl, by simp [hnodes], ?_, ?_, ?_, ?_, ?_⟩
  · rw [hnodes, List.map_map]
    exact List.map_congr_left fun n _ => by
      by_cases hc : n.role = Role.system ∧ include_system = false <;> simp [hc]
  · rw [hnodes, List.map_map]
    exact List.map_congr_left fun n _ => by
      by_cases hc : n.role = Role.system ∧ include_system = false <;> simp [hc]
  · rw [hnodes, List.map_map]
    exact List.map_congr_left fun n _ => by
      by_cases hc : n.role = Role.system ∧ include_system = false <;> simp [hc]
  · rw [hnodes]
    intro n hn hrole
    rcases List.mem_map.mp hn with ⟨x, _, rfl⟩
    by_cases hc : x.role = Role.system ∧ include_system = false
    · rw [if_pos hc] at hrole ⊢
      exact absurd hc.1 hrole
    · simp [if_neg hc]
  · rw [hnodes]
    intro hb n hn
    rcases List.mem_map.mp hn with ⟨x, _, rfl⟩
    have hc : ¬(x.role = Role.system ∧ include_system = false) := by
      rintro ⟨_, hfalse⟩
      rw [hb] at hfalse
      cases hfalse
    simp [if_neg hc]

section DeepCopyTheorem

open HeapModel

/-- C9: over the explicit heap, `deepcopy` produces a duplicate with equal
contents (same node values, same `next_id`; same record list for metrics) at
fresh addresses, and every subsequent mutation of the copy — `add_system`,
`add_user`, `add_assistant`, `toggle`, `clear` on the history copy, `log` or
`clear` on the metrics copy — leaves the nodes readable through the
original's addresses, and the original's record cell, exactly as they were
before the copy. -/
theorem deepcopy_independent (heap : Heap) (h : HistRef) (mh : MHeap) (ma : Nat)
    (hv : ∀ a ∈ h.addrs, a < heap.length) (hma : ma < mh.length) :
    readAll (hp_deepcopy heap h).1 (hp_deepcopy heap h).2.addrs =
      readAll heap h.addrs ∧
    (hp_deepcopy heap h).2.next_id = h.next_id ∧
    readAll (hp_deepcopy heap h).1 h.addrs = readAll heap h.addrs ∧
    (∀ s, readAll (hp_add_system (hp_deepcopy heap h).1 (hp_deepcopy heap h).2 s).1
      h.addrs = readAll heap h.addrs) ∧
    (∀ content, readAll
      (hp_add_user (hp_deepcopy heap h).1 (hp_deepcopy heap h).2 content).1
      h.addrs = readAll heap h.addrs) ∧
    (∀ nid s, readAll
      (hp_add_assistant (hp_deepcopy heap h).1 (hp_deepcopy heap h).2 nid s).1
      h.addrs = readAll heap h.addrs) ∧
    (∀ nid b, readAll
      (hp_toggle (hp_deepcopy heap h).1 (hp_deepcopy heap h).2 nid b)
      h.addrs = readAll heap h.addrs) ∧
    (∀ include_system, readAll
      (hp_clear (hp_deepcopy heap h).1 (hp_deepcopy heap h).2 include_system)
      h.addrs = readAll heap h.addrs) ∧
    mread (hp_mdeepcopy mh ma).1 (hp_mdeepcopy mh ma).2 = mread mh ma ∧
    mread (hp_mdeepcopy mh ma).1 ma = mread mh ma ∧
    (∀ u mo ids, mread (hp_mlog (hp_mdeepcopy mh ma).1 (hp_mdeepcopy mh ma).2 u mo ids)
      ma = mread mh ma) ∧
    mread (hp_mclear (hp_mdeepcopy mh ma).1 (hp_mdeepcopy mh ma).2) ma =
      mread mh ma := by
  have hbase : ∀ a ∈ h.addrs, (hp_deepcopy heap h).1[a]? = heap[a]? :=
    fun a ha => getElem?_append_of_lt (hv a ha)
  have hnotc : ∀ a ∈ h.addrs, a ∉ (hp_deepcopy heap h).2.addrs :=
    fun a ha => not_mem_range'_of_lt (hv a ha)
  have hlt1 : ∀ a ∈ h.addrs, a < (hp_deepcopy heap h).1.length := fun a ha =>
    Nat.lt_of_lt_of_le (hv a ha) (by simp [hp_deepcopy])
  have hmane : mh.length ≠ ma := fun hh => by omega
  refine ⟨?_, rfl, readAll_congr hbase, ?_, ?_, ?_, ?_, ?_, ?_, ?_, ?_, ?_⟩
  · show readAll (heap ++ readAll heap h.addrs)
      (List.range' heap.length h.addrs.length) = readAll heap h.addrs
    rw [show h.addrs.length = (readAll heap h.addrs).length from
      (List.length_map _ _).symm]
    exact readAll_fresh _ heap
  · intro s
    refine readAll_congr fun a ha => ?_
    rw [frame_hp_add_system _ _ s a (hnotc a ha) (hlt1 a ha)]
    exact hbase a ha
  · intro content
    refine readAll_congr fun a ha => ?_
    rw [frame_hp_add_user _ _ content a (hlt1 a ha)]
    exact hbase a ha
  · intro nid s
    refine readAll_congr fun a ha => ?_
    rw [frame_hp_add_assistant _ _ nid s a (hnotc a ha) (hlt1 a ha)]
    exact hbase a ha
  · intro nid b
    refine readAll_congr fun a ha => ?_
    rw [frame_hp_toggle _ _ nid b a (hnotc a ha)]
    exact hbase a ha
  · intro include_system
    refine readAll_congr fun a ha => ?_
    rw [frame_hp_clear _ _ include_system a (hnotc a ha)]
    exact hbase a ha
  · show mread (mh ++ [mread mh ma]) mh.length = mread mh ma
    simp [mread, List.getElem?_concat_length]
  · show mread (mh ++ [mread mh ma]) ma = mread mh ma
    simp [mread, getElem?_append_of_lt hma]
  · intro u mo ids
    show mread (List.set _ mh.length _) ma = mread mh ma
    simp [mread, hp_mdeepcopy, List.getElem?_set_ne hmane, getElem?_append_of_lt hma]
  · show mread (List.set _ mh.length _) ma = mread mh ma
    simp [mread, hp_mdeepcopy, List.getElem?_set_ne hmane, getElem?_append_of_lt hma]

/-- Witness for C9 at a one-node heap and a one-cell metrics heap. -/
theorem deepcopy_independent_witness :
    readAll (hp_deepcopy [⟨0, Role.user, Content.str "a", true⟩] ⟨[0], 1⟩).1 [0] =
      readAll [⟨0, Role.user, Content.str "a", true⟩] [0] :=
  (deepcopy_independent [⟨0, Role.user, Content.str "a", true⟩] ⟨[0], 1⟩ [[]] 0
    (by simp) (by simp)).2.2.1

end DeepCopyTheorem

end OpenaiApi
